import Mathlib

/-!
Verification development for the bobbi-beat-box audio engine.

The definitions below are a shallow embedding of the repository's audio
conditioning and export pipeline (src/unnamed/part_001: resampling,
TPDF dithering, 8/16-bit quantization, RIFF/WAVE encoding and validation,
RMS normalization with brick-wall limiting) and of the synthesis policy
constants of src/src/components/ModularSynthEngine.tsx and
src/src/components/BobbiCussion.tsx (base frequency, event duration,
offline render buffer length).

Modelling conventions:
- JS `number` is modelled by an exact linear ordered field (`ℚ` where the
  source computes only field operations, `ℝ` where it takes square roots,
  powers or exponentials).  Typed arrays are modelled by `List`.
- `Math.random()` (used by the dither and noise stages) is modelled by an
  explicit list of pre-drawn values passed as an extra argument; theorems
  quantify over that list.
- In-place mutation of a buffer is modelled by state passing: a mutating
  function returns the post-call content of its argument buffer as part of
  its result.
- A JS read `a[j]` outside the bounds of `a` yields `undefined` and turns
  subsequent arithmetic into NaN; the embedding returns the field's `0`
  there and the out-of-bounds situation itself is tracked through the
  index functions (`readIdx`, `jsGet`).
-/

section JsNumerics

variable {K : Type*} [LinearOrderedField K] [FloorRing K]

/-- JS `x | 0` (ToInt32 as used on small nonnegative positions in
`linearResampleMono`) and the integer conversion step of typed-array
stores: truncation toward zero. -/
def jsTrunc (q : K) : ℤ :=
  if q < 0 then ⌈q⌉ else ⌊q⌋

/-- JS `Math.round`: round half toward positive infinity. -/
def jsRound (q : K) : ℤ :=
  ⌊q + 1 / 2⌋

/-- JS array read `l[j]` for an integer index: the element when `j` is in
bounds, and the NaN-placeholder `0` for an `undefined` out-of-bounds read. -/
def jsGet (l : List K) (j : ℤ) : K :=
  if 0 ≤ j ∧ j < (l.length : ℤ) then l.getD j.toNat 0 else 0

end JsNumerics

section Resample

variable {K : Type*} [LinearOrderedField K] [FloorRing K]

/-- Read index used by `linearResampleMono` (src/unnamed/part_001 lines
50-51): `Math.min(idx, input.length - 1)`, computed in ℤ so that the empty
buffer yields the JS index `-1`. -/
def readIdx (len : ℕ) (idx : ℤ) : ℤ :=
  min idx ((len : ℤ) - 1)

/-- Body of the resampling loop (src/unnamed/part_001 lines 48-52): clamp
the two neighbour indices, read `s0`, `s1` and interpolate with the
fractional part of the position. -/
def resampleBody (input : List K) (pos : K) : K :=
  let idx := jsTrunc pos
  let frac := pos - (idx : K)
  let s0 := jsGet input (readIdx input.length idx)
  let s1 := jsGet input (readIdx input.length (idx + 1))
  s0 + (s1 - s0) * frac

/-- The resampling loop of src/unnamed/part_001 lines 46-54: `n` remaining
output samples, `pos` the current (accumulated) source position, stepping
by `step = 1 / ratio` per output sample. -/
def resampleLoop (input : List K) (step : K) : ℕ → K → List K
  | 0, _ => []
  | n + 1, pos => resampleBody input pos :: resampleLoop input step n (pos + step)

/-- `linearResampleMono` (src/unnamed/part_001 lines 40-56).  When the two
rates are equal the source returns `input.slice()`, a fresh copy with the
same values, which state-lessly is `input` itself. -/
def linearResampleMono (input : List K) (srcRate dstRate : K) : List K :=
  if srcRate = dstRate then input
  else
    let ratio := dstRate / srcRate
    let outLength : ℕ := (max 1 ⌊(input.length : K) * ratio⌋).toNat
    resampleLoop input (1 / ratio) outLength 0

/-- Spec-side description of one resampled sample, written from the spec's
words: "linear interpolation between neighboring input samples at
fractional output positions", with output position `i` mapped to the
closed-form source position `i * srcRate / dstRate`.  Used to compare the
source's accumulated-position loop against the spec. -/
def resampleSpecSample (input : List K) (srcRate dstRate : K) (i : ℕ) : K :=
  let pos := (i : K) * srcRate / dstRate
  let idx := ⌊pos⌋
  let frac := pos - (idx : K)
  let s0 := jsGet input (readIdx input.length idx)
  let s1 := jsGet input (readIdx input.length (idx + 1))
  s0 + (s1 - s0) * frac

end Resample

section Quantize

variable {K : Type*} [LinearOrderedField K] [FloorRing K]

/-- `tpdfDither` (src/unnamed/part_001 lines 58-62): add triangular noise
`(r1 + r2 - 1) * lsb` where `r1`, `r2` model two `Math.random()` draws. -/
def tpdfDither (sample : K) (lsb : K) (r : K × K) : K :=
  sample + (r.1 + r.2 - 1) * lsb

/-- `floatTo8BitUnsignedPCM` (src/unnamed/part_001 lines 64-74): clamp to
[-1, 1], map to [0, 255] with `Math.round`, clamp again, store as a byte. -/
def floatTo8BitUnsignedPCM (input : List K) : List ℕ :=
  input.map fun v =>
    let s := max (-1) (min 1 v)
    let u : ℤ := jsRound ((s * (1 / 2) + 1 / 2) * 255)
    (max 0 (min 255 u)).toNat

/-- `applyDitherThenQuantize` (src/unnamed/part_001 lines 76-84): dither
each sample by about one signed-scale LSB, then quantize to unsigned 8-bit.
`noise` provides the `(Math.random(), Math.random())` pair for each index;
a missing entry defaults to `(0, 0)`, itself a legal pair of draws. -/
def applyDitherThenQuantize (input : List K) (bits : ℕ) (noise : List (K × K)) : List ℕ :=
  let lsbNorm : K := 1 / 2 ^ (bits - 1)
  floatTo8BitUnsignedPCM
    ((List.range input.length).map fun i => tpdfDither (input.getD i 0) lsbNorm (noise.getD i (0, 0)))

/-- Int16 wrap-around of a JS typed-array store (`Int16Array` setter):
truncated value taken mod 2^16 into [-32768, 32767]. -/
def wrap16 (n : ℤ) : ℤ :=
  (n + 32768) % 65536 - 32768

/-- `floatTo16BitPCMWithTPDF` (src/unnamed/part_001 lines 343-359): TPDF
dither around 1 LSB, clip to [-1, 1], scale by the separate negative /
positive full-scale constants and store into an Int16 slot. -/
def floatTo16BitPCMWithTPDF (buffer : List K) (noise : List (K × K)) : List ℤ :=
  (List.range buffer.length).map fun i =>
    let r := noise.getD i (0, 0)
    let dither := ((r.1 - 1 / 2) + (r.2 - 1 / 2)) * (1 / 32768)
    let s0 := buffer.getD i 0 + dither
    let s := if s0 > 1 then 1 else if s0 < -1 then -1 else s0
    wrap16 (jsTrunc (if s < 0 then s * 32768 else s * 32767))

end Quantize

section WavContainer

/-- Byte `k` of the little-endian 32-bit store of `n` (`DataView.setUint32`
with littleEndian = true). -/
def u32b (n : ℕ) (k : ℕ) : ℕ :=
  n / 256 ^ k % 256

/-- `writeWavU8Mono` (src/unnamed/part_001 lines 86-130): the 44-byte
classic RIFF PCM header followed by the raw bytes.  Literal bytes are the
ASCII codes of `RIFF`, `WAVE`, `fmt `, `data` and the little-endian 16-bit
fields (PCM format 1, mono 1, blockAlign 1, bitsPerSample 8); blockAlign is
`numChannels * (bitsPerSample >> 3 || 1) = 1`. -/
def writeWavU8Mono (pcmU8 : List ℕ) (sampleRate : ℕ) : List ℕ :=
  let blockAlign : ℕ := 1
  let byteRate : ℕ := sampleRate * blockAlign
  let dataSize : ℕ := pcmU8.length
  let fileSize : ℕ := 44 - 8 + dataSize
  [82, 73, 70, 70,
   u32b fileSize 0, u32b fileSize 1, u32b fileSize 2, u32b fileSize 3,
   87, 65, 86, 69,
   102, 109, 116, 32,
   16, 0, 0, 0,
   1, 0,
   1, 0,
   u32b sampleRate 0, u32b sampleRate 1, u32b sampleRate 2, u32b sampleRate 3,
   u32b byteRate 0, u32b byteRate 1, u32b byteRate 2, u32b byteRate 3,
   1, 0,
   8, 0,
   100, 97, 116, 97,
   u32b dataSize 0, u32b dataSize 1, u32b dataSize 2, u32b dataSize 3]
  ++ pcmU8

/-- Little-endian 16-bit read (`DataView.getUint16(k, true)`). -/
def readU16le (bytes : List ℕ) (k : ℕ) : ℕ :=
  bytes.getD k 0 + 256 * bytes.getD (k + 1) 0

/-- Little-endian 32-bit read (`DataView.getUint32(k, true)`). -/
def readU32le (bytes : List ℕ) (k : ℕ) : ℕ :=
  bytes.getD k 0 + 256 * bytes.getD (k + 1) 0 + 65536 * bytes.getD (k + 2) 0
    + 16777216 * bytes.getD (k + 3) 0

/-- The `stats` record built by `validatePTWavExport`. -/
structure WavStats where
  channels : ℕ
  sampleRate : ℕ
  bitsPerSample : ℕ
  duration : ℚ
  peakClipping : ℚ
  deriving Repr, DecidableEq

/-- Result of `validatePTWavExport`. -/
structure PTValidation where
  valid : Bool
  errors : List String
  stats : WavStats
  deriving Repr, DecidableEq

/-- `validatePTWavExport` (src/unnamed/part_001 lines 237-308): re-parse
the encoded bytes, collect the error messages in source order and report
the parsed stats. -/
def validatePTWavExport (bytes : List ℕ) : PTValidation :=
  let riffOk := bytes.getD 0 0 = 82 ∧ bytes.getD 1 0 = 73 ∧ bytes.getD 2 0 = 70 ∧ bytes.getD 3 0 = 70
  let waveOk := bytes.getD 8 0 = 87 ∧ bytes.getD 9 0 = 65 ∧ bytes.getD 10 0 = 86 ∧ bytes.getD 11 0 = 69
  let fmtOk := bytes.getD 12 0 = 102 ∧ bytes.getD 13 0 = 109 ∧ bytes.getD 14 0 = 116 ∧ bytes.getD 15 0 = 32
  let audioFormat := readU16le bytes 20
  let channels := readU16le bytes 22
  let sampleRate := readU32le bytes 24
  let bitsPerSample := readU16le bytes 34
  let dataOk := bytes.getD 36 0 = 100 ∧ bytes.getD 37 0 = 97 ∧ bytes.getD 38 0 = 116 ∧ bytes.getD 39 0 = 97
  let dataSize := readU32le bytes 40
  let duration : ℚ := (dataSize : ℚ) / (sampleRate : ℚ)
  let pcmData := (bytes.drop 44).take dataSize
  let clippedSamples := (pcmData.filter fun b => b = 0 ∨ b = 255).length
  let peakClipping : ℚ := (clippedSamples : ℚ) / (pcmData.length : ℚ)
  let errors :=
    (if riffOk then [] else ["Invalid RIFF header"])
    ++ (if waveOk then [] else ["Invalid WAVE header"])
    ++ (if fmtOk then [] else ["Invalid fmt chunk"])
    ++ (if audioFormat = 1 then [] else ["Not PCM format"])
    ++ (if channels = 1 then [] else ["Not mono"])
    ++ (if sampleRate = 22168 then [] else ["Not 22168 Hz"])
    ++ (if bitsPerSample = 8 then [] else ["Not 8-bit"])
    ++ (if dataOk then [] else ["Invalid data chunk"])
    ++ (if duration < 5 / 1000 then ["Duration < 5ms"] else [])
    ++ (if duration > 10 then ["Duration > 10s"] else [])
    ++ (if peakClipping > 1 / 100 then ["Peak clipping > 1%"] else [])
  { valid := errors.isEmpty
    errors := errors
    stats :=
      { channels := channels
        sampleRate := sampleRate
        bitsPerSample := bitsPerSample
        duration := duration
        peakClipping := peakClipping } }

end WavContainer

section SynthPolicy

/-- `safeParam` (src/src/components/ModularSynthEngine.tsx lines 8-12):
clamp to `[lo, hi]`; the non-finite branch of the source has no exact-field
counterpart (every `ℚ` is finite). -/
def safeParam (v lo hi : ℚ) : ℚ :=
  max lo (min hi v)

/-- Base frequency policy of `generateModularSound`
(src/src/components/ModularSynthEngine.tsx lines 14-18): `sounds` presets
map the FM parameter into 150..950 Hz, every other category gets 60 Hz,
then the result is clamped to 20..2000 Hz. -/
def modularBaseFreq (category : String) (fmAmount : ℚ) : ℚ :=
  let f := if category = "sounds" then 150 + safeParam fmAmount 0 1 * 800 else 60
  max 20 (min 2000 f)

/-- Event duration of `generateModularSound`
(src/src/components/ModularSynthEngine.tsx line 5):
`Math.max(0.1, 0.1 + envelopeShape * 0.5)` seconds (the raw parameter is
used here, without `safeParam`). -/
def modularDuration (envelopeShape : ℚ) : ℚ :=
  max (1 / 10) (1 / 10 + envelopeShape * (1 / 2))

/-- Duration in seconds backing the offline render buffer of
`renderAudioToBuffer` (src/src/components/BobbiCussion.tsx line 328,
without a custom sample length): `Math.max(0.2, 0.1 + envelopeShape * 0.8)`. -/
def renderBufferDuration (envelopeShape : ℚ) : ℚ :=
  max (1 / 5) (1 / 10 + envelopeShape * (4 / 5))

/-- Offline render buffer length of `renderAudioToBuffer`
(src/src/components/BobbiCussion.tsx line 328):
`Math.floor(renderBufferDuration * sampleRate)`. -/
def renderBufferLength (envelopeShape : ℚ) (sampleRate : ℚ) : ℕ :=
  ⌊renderBufferDuration envelopeShape * sampleRate⌋.toNat

end SynthPolicy

section PeakRms

variable {K : Type*} [LinearOrderedField K]

/-- `getAbsPeak` (src/unnamed/part_001 lines 312-319): running maximum of
the absolute values, starting from 0. -/
def getAbsPeak (buf : List K) : K :=
  buf.foldl (fun p v => max p |v|) 0

/-- The running sum of squares inside `getRms`
(src/unnamed/part_001 lines 322-325). -/
def sumSquares (buf : List K) : K :=
  buf.foldl (fun s v => s + v * v) 0

end PeakRms

section Normalize

/-- `getRms` (src/unnamed/part_001 lines 321-327):
`sqrt(sum of squares / length)`. -/
noncomputable def getRms (buf : List ℝ) : ℝ :=
  Real.sqrt (sumSquares buf / (buf.length : ℝ))

/-- `dBToLinear` (src/unnamed/part_001 line 309): `10 ^ (db / 20)`. -/
noncomputable def dBToLinear (db : ℝ) : ℝ :=
  Real.rpow 10 (db / 20)

/-- Options record of `normalizeMonoBuffer`
(src/unnamed/part_001 lines 367-372). -/
structure NormCfg where
  targetRmsDBFS : ℝ
  limiterThresholdDBFS : ℝ
  silenceThreshold : ℝ
  maxGainDB : ℝ

/-- The record returned by `normalizeMonoBuffer`
(src/unnamed/part_001 lines 376 and 398). -/
structure NormResult where
  applied : Bool
  peakBefore : ℝ
  peakAfter : ℝ
  gain : ℝ

/-- Default options of `normalizeMonoBuffer`
(src/unnamed/part_001 lines 368-371). -/
noncomputable def defaultNormCfg : NormCfg :=
  { targetRmsDBFS := -14
    limiterThresholdDBFS := -1
    silenceThreshold := 1 / 1000000
    maxGainDB := 24 }

/-- Options passed by `exportPTWavV2` (src/unnamed/part_001 lines 151-155);
the silence threshold keeps its default. -/
noncomputable def ptNormCfg : NormCfg :=
  { targetRmsDBFS := -12
    limiterThresholdDBFS := -1 / 2
    silenceThreshold := 1 / 1000000
    maxGainDB := 20 }

/-- Options with 0 dBFS target and limiter (both linear 1) and +20 dB max
gain, used to exhibit the in-place mutation of `normalizeMonoBuffer` on a
concrete buffer with easily evaluated powers of ten. -/
noncomputable def cexNormCfg : NormCfg :=
  { targetRmsDBFS := 0
    limiterThresholdDBFS := 0
    silenceThreshold := 1 / 1000000
    maxGainDB := 20 }

/-- The gain computed by `normalizeMonoBuffer`
(src/unnamed/part_001 lines 380-385): `min(targetRmsLin / (rms || 1e-12),
maxGainLin)`, where `rms || 1e-12` is JS falsiness on 0. -/
noncomputable def normGain (mono : List ℝ) (cfg : NormCfg) : ℝ :=
  let rms := getRms mono
  min (dBToLinear cfg.targetRmsDBFS / (if rms = 0 then 1 / 1000000000000 else rms))
    (dBToLinear cfg.maxGainDB)

/-- Loop body of the gain-plus-limiter pass of `normalizeMonoBuffer`
(src/unnamed/part_001 lines 389-395): scale by `gain`, then clamp any
sample whose magnitude exceeds the linear threshold to `sign(val) * L`. -/
noncomputable def applyGainLimit (gain L x : ℝ) : ℝ :=
  let v := x * gain
  if L < |v| then Real.sign v * L else v

/-- `normalizeMonoBuffer` (src/unnamed/part_001 lines 365-399).  The first
component of the result is the post-call content of the argument buffer
(the source mutates `mono` in place); the second is the returned record. -/
noncomputable def normalizeMonoBuffer (mono : List ℝ) (cfg : NormCfg) : List ℝ × NormResult :=
  let peakBefore := getAbsPeak mono
  if peakBefore < cfg.silenceThreshold then
    (mono, { applied := false, peakBefore := peakBefore, peakAfter := peakBefore, gain := 1 })
  else
    let gain := normGain mono cfg
    let L := dBToLinear cfg.limiterThresholdDBFS
    let out := mono.map (applyGainLimit gain L)
    (out, { applied := true, peakBefore := peakBefore, peakAfter := getAbsPeak out, gain := gain })

end Normalize

section ExportPipeline

/-- The one-pole high-pass loop of `removeDC` (src/unnamed/part_001 lines
30-36), translated statement by statement: after `tmp[i] = y` the source
sets `inPrev = tmp[i]`, i.e. both state variables become `y`. -/
noncomputable def removeDCLoop (x : ℝ) : List ℝ → ℝ → ℝ → List ℝ
  | [], _, _ => []
  | t :: ts, yPrev, inPrev =>
      let y := x * (yPrev + t - inPrev)
      y :: removeDCLoop x ts y y

/-- `removeDC` (src/unnamed/part_001 lines 18-38): subtract the mean
(`mean /= samples.length || 1`), then run the ~10 Hz one-pole high pass
with coefficient `exp(-2 * pi * 10 / 48000)`. -/
noncomputable def removeDC (samples : List ℝ) : List ℝ :=
  let mean := samples.sum / (if samples.length = 0 then 1 else (samples.length : ℝ))
  let tmp := samples.map (fun v => v - mean)
  removeDCLoop (Real.exp (-(2 * Real.pi * 10) / 48000)) tmp 0 0

/-- The end-fade loop of `exportPTWavV2` (src/unnamed/part_001 lines
160-168), as the resulting buffer content: the loop multiplies position
`len - 1 - i` by `1 - i / fadeSamples` for `i < fadeSamples`, so position
`idx ≥ len - fadeSamples` is scaled by `1 - (len - 1 - idx) / fadeSamples`. -/
noncomputable def applyEndFade (buf : List ℝ) (fadeSamples : ℕ) : List ℝ :=
  (List.range buf.length).map fun idx =>
    if buf.length - fadeSamples ≤ idx then
      buf.getD idx 0 * (1 - ((buf.length - 1 - idx : ℕ) : ℝ) / (fadeSamples : ℝ))
    else
      buf.getD idx 0

/-- `exportPTWavV2` (src/unnamed/part_001 lines 132-183) with the default
target sample rate 22168, reduced to its byte output: DC removal, in-place
normalization, resampling of the (mutated) normalized buffer, 10 ms end
fade, TPDF dither + 8-bit quantization, RIFF/WAVE encoding.  An empty
input throws (`none`). -/
noncomputable def exportPTWavV2 (inputFloatMono : List ℝ) (srcSampleRate : ℝ)
    (noise : List (ℝ × ℝ)) : Option (List ℕ) :=
  if inputFloatMono.length = 0 then none
  else
    let dcFixed := removeDC inputFloatMono
    let normed := (normalizeMonoBuffer dcFixed ptNormCfg).1
    let resampled := linearResampleMono normed srcSampleRate 22168
    let fadeSamples := min resampled.length ⌊(22168 : ℝ) * (1 / 100)⌋.toNat
    let faded := applyEndFade resampled fadeSamples
    let pcmU8 := applyDitherThenQuantize faded 8 noise
    some (writeWavU8Mono pcmU8 22168)

end ExportPipeline

section SynthPolicyTheorems

theorem safeParam_unit_bounds (q : ℚ) : 0 ≤ safeParam q 0 1 ∧ safeParam q 0 1 ≤ 1 :=
  ⟨le_max_left _ _, max_le (by norm_num) (min_le_left _ _)⟩

/-- C7: for sanitized parameters, the signal graph's base frequency is
exactly 60 Hz for the `drums` category, `150 + fmAmount * 800` Hz (within
150..950 Hz) for the `sounds` category, and for every category it lies in
the clamped safe range 20..2000 Hz. -/
theorem claim_C7_base_frequency_policy (cat : String) (fm : ℚ) :
    modularBaseFreq "drums" fm = 60 ∧
    (0 ≤ fm → fm ≤ 1 → modularBaseFreq "sounds" fm = 150 + fm * 800) ∧
    (150 ≤ modularBaseFreq "sounds" fm ∧ modularBaseFreq "sounds" fm ≤ 950) ∧
    (20 ≤ modularBaseFreq cat fm ∧ modularBaseFreq cat fm ≤ 2000) := by
  obtain ⟨hs0, hs1⟩ := safeParam_unit_bounds fm
  have hdrums : modularBaseFreq "drums" fm = 60 := by
    show max 20 (min 2000 (if ("drums" : String) = "sounds" then _ else 60)) = 60
    rw [if_neg (by decide)]
    norm_num
  have hsounds : modularBaseFreq "sounds" fm = 150 + safeParam fm 0 1 * 800 := by
    show max 20 (min 2000 (if ("sounds" : String) = "sounds" then 150 + safeParam fm 0 1 * 800 else 60))
      = 150 + safeParam fm 0 1 * 800
    rw [if_pos rfl, min_eq_right (by linarith), max_eq_right (by linarith)]
  refine ⟨hdrums, ?_, ?_, ?_⟩
  · intro h0 h1
    have hsp : safeParam fm 0 1 = fm := by
      unfold safeParam
      rw [min_eq_right h1, max_eq_right h0]
    rw [hsounds, hsp]
  · rw [hsounds]
    constructor <;> linarith
  · constructor
    · exact le_max_left _ _
    · exact max_le (by norm_num) (le_trans (min_le_left _ _) (by norm_num))

theorem claim_C7_witness :
    modularBaseFreq "sounds" (1 / 2) = 150 + (1 / 2) * 800 ∧
    modularBaseFreq "drums" (1 / 2) = 60 ∧
    20 ≤ modularBaseFreq "textures" (1 / 2) ∧ modularBaseFreq "textures" (1 / 2) ≤ 2000 := by
  have h := claim_C7_base_frequency_policy "textures" (1 / 2)
  exact ⟨h.2.1 (by norm_num) (by norm_num), h.1, h.2.2.2⟩

/-- C8 (amended): the event duration returned by `generateModularSound` is
`max(0.1, 0.1 + shape * 0.5)`: 0.1 s at shape 0 (the shortest), 0.6 s at
shape 1 (the longest), monotone in the shape, and within 0.1..0.8 s; the
offline render buffer duration used by the export path is
`max(0.2, 0.1 + shape * 0.8)`: 0.2 s at shape 0 (the shortest), 0.9 s at
shape 1 (the longest), and monotone (as is the buffer length in samples). -/
theorem claim_C8_duration_policy (s t : ℚ) (h0 : 0 ≤ s) (hst : s ≤ t) (ht : t ≤ 1) :
    modularDuration 0 = 1 / 10 ∧ modularDuration 1 = 3 / 5 ∧
    modularDuration s ≤ modularDuration t ∧
    (1 / 10 ≤ modularDuration s ∧ modularDuration s ≤ 4 / 5) ∧
    renderBufferDuration 0 = 1 / 5 ∧ renderBufferDuration 1 = 9 / 10 ∧
    renderBufferDuration s ≤ renderBufferDuration t ∧
    renderBufferLength s 48000 ≤ renderBufferLength t 48000 := by
  have hmono : modularDuration s ≤ modularDuration t :=
    max_le_max le_rfl (by linarith)
  have hbmono : renderBufferDuration s ≤ renderBufferDuration t :=
    max_le_max le_rfl (by linarith)
  refine ⟨?_, ?_, hmono, ⟨le_max_left _ _, ?_⟩, ?_, ?_, hbmono, ?_⟩
  · unfold modularDuration
    rw [max_eq_left (by norm_num)]
  · unfold modularDuration
    rw [max_eq_right (by norm_num)]
    norm_num
  · exact max_le (by norm_num) (by linarith)
  · unfold renderBufferDuration
    rw [max_eq_left (by norm_num)]
  · unfold renderBufferDuration
    rw [max_eq_right (by norm_num)]
    norm_num
  · unfold renderBufferLength
    exact Int.toNat_le_toNat (Int.floor_le_floor (by nlinarith))

theorem claim_C8_witness :
    (0 : ℚ) ≤ 0 ∧ (0 : ℚ) ≤ 1 ∧ (1 : ℚ) ≤ 1 ∧
    (modularDuration 0 = 1 / 10 ∧ modularDuration 1 = 3 / 5 ∧
      modularDuration 0 ≤ modularDuration 1 ∧
      (1 / 10 ≤ modularDuration 0 ∧ modularDuration 0 ≤ 4 / 5) ∧
      renderBufferDuration 0 = 1 / 5 ∧ renderBufferDuration 1 = 9 / 10 ∧
      renderBufferDuration 0 ≤ renderBufferDuration 1 ∧
      renderBufferLength 0 48000 ≤ renderBufferLength 1 48000) :=
  ⟨le_refl 0, by norm_num, le_refl 1,
    claim_C8_duration_policy 0 1 (le_refl 0) (by norm_num) (le_refl 1)⟩

/-- C8 counterexample: at envelope shape 1 the offline render buffer
duration is 0.9 s, outside the documented 0.1..0.8 s range, and at shape 0
it is 0.2 s, not about 0.1 s. -/
theorem claim_C8_counterexample :
    renderBufferDuration 1 = 9 / 10 ∧ ¬ renderBufferDuration 1 ≤ 8 / 10 ∧
    renderBufferDuration 0 = 1 / 5 := by
  have h1 : renderBufferDuration 1 = 9 / 10 := by
    unfold renderBufferDuration
    rw [max_eq_right (by norm_num)]
    norm_num
  have h0 : renderBufferDuration 0 = 1 / 5 := by
    unfold renderBufferDuration
    rw [max_eq_left (by norm_num)]
  exact ⟨h1, by rw [h1]; norm_num, h0⟩

end SynthPolicyTheorems

section ResampleTheorems

variable {K : Type*} [LinearOrderedField K] [FloorRing K]

theorem resampleLoop_length (input : List K) (step : K) (n : ℕ) (p : K) :
    (resampleLoop input step n p).length = n := by
  induction n generalizing p with
  | zero => rfl
  | succ n ih => simp [resampleLoop, ih]

theorem resampleLoop_getD (input : List K) (step : K) (n : ℕ) (p : K) (i : ℕ) (h : i < n) :
    (resampleLoop input step n p).getD i 0 = resampleBody input (p + (i : K) * step) := by
  induction n generalizing p i with
  | zero => omega
  | succ n ih =>
    cases i with
    | zero =>
      show (resampleBody input p :: resampleLoop input step n (p + step)).getD 0 0 = _
      rw [List.getD_cons_zero]
      norm_num
    | succ i =>
      show (resampleBody input p :: resampleLoop input step n (p + step)).getD (i + 1) 0 = _
      rw [List.getD_cons_succ, ih (p + step) i (by omega)]
      congr 1
      push_cast
      ring

theorem jsTrunc_of_nonneg (q : K) (h : 0 ≤ q) : jsTrunc q = ⌊q⌋ := by
  unfold jsTrunc
  rw [if_neg (not_lt.mpr h)]

/-- C3: when the rates differ, `linearResampleMono` produces
`max(1, floor(inputLength * dstRate / srcRate))` samples and each output
sample equals the spec's linear interpolation at the closed-form source
position `i * srcRate / dstRate`; when the rates are equal the output is
the input, unchanged. -/
theorem claim_C3_resample_length_consistent (input : List ℚ) (src dst : ℚ)
    (hs : 0 < src) (hd : 0 < dst) :
    (src ≠ dst →
      (linearResampleMono input src dst).length = (max 1 ⌊(input.length : ℚ) * (dst / src)⌋).toNat ∧
      ∀ i : ℕ, i < (linearResampleMono input src dst).length →
        (linearResampleMono input src dst).getD i 0 = resampleSpecSample input src dst i) ∧
    (src = dst → linearResampleMono input src dst = input) := by
  constructor
  · intro hne
    have hout : linearResampleMono input src dst
        = resampleLoop input (1 / (dst / src)) ((max 1 ⌊(input.length : ℚ) * (dst / src)⌋).toNat) 0 := by
      unfold linearResampleMono
      rw [if_neg hne]
    have hstep : 1 / (dst / src) = src / dst := one_div_div dst src
    refine ⟨by rw [hout, resampleLoop_length], ?_⟩
    intro i hi
    rw [hout, resampleLoop_length] at hi
    rw [hout, resampleLoop_getD _ _ _ _ _ hi, hstep]
    have hpos : (0 : ℚ) + (i : ℚ) * (src / dst) = (i : ℚ) * src / dst := by ring
    rw [hpos]
    have hnn : (0 : ℚ) ≤ (i : ℚ) * src / dst := by positivity
    unfold resampleBody resampleSpecSample
    rw [jsTrunc_of_nonneg _ hnn]
  · intro heq
    unfold linearResampleMono
    rw [if_pos heq]

theorem claim_C3_witness :
    (0 : ℚ) < 2 ∧ (0 : ℚ) < 1 ∧ (2 : ℚ) ≠ 1 ∧
    ((linearResampleMono [(3 : ℚ), 5] 2 1).length
        = (max 1 ⌊((List.length [(3 : ℚ), 5] : ℚ)) * (1 / 2)⌋).toNat ∧
      ∀ i : ℕ, i < (linearResampleMono [(3 : ℚ), 5] 2 1).length →
        (linearResampleMono [(3 : ℚ), 5] 2 1).getD i 0 = resampleSpecSample [(3 : ℚ), 5] 2 1 i) ∧
    linearResampleMono [(3 : ℚ), 5] 2 2 = [(3 : ℚ), 5] := by
  have h := claim_C3_resample_length_consistent [(3 : ℚ), 5] 2 1 (by norm_num) (by norm_num)
  have h' := claim_C3_resample_length_consistent [(3 : ℚ), 5] 2 2 (by norm_num) (by norm_num)
  exact ⟨by norm_num, by norm_num, by norm_num, h.1 (by norm_num), h'.2 rfl⟩

theorem foldl_max_abs (l : List K) (p : K) (hp : 0 ≤ p) :
    l.foldl (fun a v => max a |v|) p = max p (getAbsPeak l) := by
  induction l generalizing p with
  | nil =>
    show p = max p (getAbsPeak ([] : List K))
    unfold getAbsPeak
    simp [max_eq_left hp]
  | cons x xs ih =>
    show xs.foldl (fun a v => max a |v|) (max p |x|) = max p (getAbsPeak (x :: xs))
    have h1 : getAbsPeak (x :: xs) = xs.foldl (fun a v => max a |v|) (max 0 |x|) := rfl
    rw [ih (max p |x|) (le_trans hp (le_max_left _ _)), h1,
      ih (max 0 |x|) (le_max_left _ _), max_eq_right (abs_nonneg x), max_assoc]

theorem getAbsPeak_cons (x : K) (xs : List K) :
    getAbsPeak (x :: xs) = max |x| (getAbsPeak xs) := by
  have h1 : getAbsPeak (x :: xs) = xs.foldl (fun a v => max a |v|) (max 0 |x|) := rfl
  rw [h1, foldl_max_abs xs (max 0 |x|) (le_max_left _ _), max_eq_right (abs_nonneg x)]

theorem getAbsPeak_nonneg (l : List K) : 0 ≤ getAbsPeak l := by
  induction l with
  | nil => exact le_refl 0
  | cons x xs ih => rw [getAbsPeak_cons]; exact le_trans ih (le_max_right _ _)

theorem abs_le_getAbsPeak (l : List K) (x : K) (hx : x ∈ l) : |x| ≤ getAbsPeak l := by
  induction l with
  | nil => cases hx
  | cons y ys ih =>
    rw [getAbsPeak_cons]
    rcases List.mem_cons.mp hx with h | h
    · rw [h]; exact le_max_left _ _
    · exact le_trans (ih h) (le_max_right _ _)

theorem getAbsPeak_le_of_forall (l : List K) (c : K) (hc : 0 ≤ c)
    (h : ∀ x ∈ l, |x| ≤ c) : getAbsPeak l ≤ c := by
  induction l with
  | nil => exact hc
  | cons x xs ih =>
    rw [getAbsPeak_cons]
    exact max_le (h x (List.mem_cons_self x xs)) (ih fun y hy => h y (List.mem_cons_of_mem x hy))

theorem mem_resampleLoop (input : List K) (step : K) (n : ℕ) (p : K) (x : K)
    (hx : x ∈ resampleLoop input step n p) :
    ∃ i : ℕ, i < n ∧ x = resampleBody input (p + (i : K) * step) := by
  obtain ⟨i, hi, hget⟩ := List.mem_iff_getElem.mp hx
  rw [resampleLoop_length] at hi
  refine ⟨i, hi, ?_⟩
  have hd := resampleLoop_getD input step n p i hi
  rw [List.getD_eq_getElem _ _ (by rw [resampleLoop_length]; exact hi)] at hd
  rw [← hget, hd]

theorem resampleBody_convex (input : List K) (pos : K) (hne : input ≠ []) (hpos : 0 ≤ pos) :
    ∃ j0 j1 : ℕ, j0 < input.length ∧ j1 < input.length ∧ ∃ t : K, 0 ≤ t ∧ t < 1 ∧
      resampleBody input pos = input.getD j0 0 + (input.getD j1 0 - input.getD j0 0) * t := by
  have hlen : 1 ≤ input.length := List.length_pos.mpr hne
  have hfl : jsTrunc pos = ⌊pos⌋ := jsTrunc_of_nonneg pos hpos
  have hidx0 : 0 ≤ jsTrunc pos := by rw [hfl]; exact Int.floor_nonneg.mpr hpos
  have hb : ∀ k : ℤ, 0 ≤ k →
      0 ≤ readIdx input.length k ∧ readIdx input.length k < (input.length : ℤ) := by
    intro k hk
    unfold readIdx
    exact ⟨le_min hk (by omega), lt_of_le_of_lt (min_le_right _ _) (by omega)⟩
  obtain ⟨h00, h01⟩ := hb (jsTrunc pos) hidx0
  obtain ⟨h10, h11⟩ := hb (jsTrunc pos + 1) (by omega)
  refine ⟨(readIdx input.length (jsTrunc pos)).toNat,
    (readIdx input.length (jsTrunc pos + 1)).toNat, by omega, by omega,
    pos - (jsTrunc pos : K), ?_, ?_, ?_⟩
  · rw [hfl]
    exact sub_nonneg.mpr (Int.floor_le pos)
  · rw [hfl]
    linarith [Int.lt_floor_add_one pos]
  · simp only [resampleBody, jsGet]
    rw [if_pos ⟨h00, h01⟩, if_pos ⟨h10, h11⟩]

/-- C10 (amended): for every nonempty input buffer and positive rates,
every output sample of `linearResampleMono` is a convex combination
`s0 + (s1 - s0) * t`, `t` in [0, 1), of two input samples at in-bounds
(clamped) indices, and the output's absolute peak never exceeds the
input's; on the empty buffer the clamped read index is `-1`, an
out-of-bounds read (see the counterexample). -/
theorem claim_C10_resample_safety (input : List ℚ) (src dst : ℚ) (hne : input ≠ [])
    (hs : 0 < src) (hd : 0 < dst) :
    (∀ x ∈ linearResampleMono input src dst,
      ∃ j0 j1 : ℕ, j0 < input.length ∧ j1 < input.length ∧ ∃ t : ℚ, 0 ≤ t ∧ t < 1 ∧
        x = input.getD j0 0 + (input.getD j1 0 - input.getD j0 0) * t) ∧
    getAbsPeak (linearResampleMono input src dst) ≤ getAbsPeak input := by
  have hmain : ∀ x ∈ linearResampleMono input src dst,
      ∃ j0 j1 : ℕ, j0 < input.length ∧ j1 < input.length ∧ ∃ t : ℚ, 0 ≤ t ∧ t < 1 ∧
        x = input.getD j0 0 + (input.getD j1 0 - input.getD j0 0) * t := by
    intro x hx
    by_cases heq : src = dst
    · unfold linearResampleMono at hx
      rw [if_pos heq] at hx
      obtain ⟨i, hi, hget⟩ := List.mem_iff_getElem.mp hx
      refine ⟨i, i, hi, hi, 0, le_refl 0, by norm_num, ?_⟩
      rw [List.getD_eq_getElem _ _ hi, hget]
      ring
    · unfold linearResampleMono at hx
      rw [if_neg heq] at hx
      obtain ⟨i, hi, hxb⟩ := mem_resampleLoop _ _ _ _ _ hx
      have hpos : (0 : ℚ) ≤ 0 + (i : ℚ) * (1 / (dst / src)) := by
        rw [one_div_div]
        positivity
      obtain ⟨j0, j1, hj0, hj1, t, ht0, ht1, hconv⟩ := resampleBody_convex input _ hne hpos
      exact ⟨j0, j1, hj0, hj1, t, ht0, ht1, by rw [hxb, hconv]⟩
  refine ⟨hmain, getAbsPeak_le_of_forall _ _ (getAbsPeak_nonneg input) ?_⟩
  intro x hx
  obtain ⟨j0, j1, hj0, hj1, t, ht0, ht1, hx'⟩ := hmain x hx
  have ha := abs_le_getAbsPeak input (input.getD j0 0)
    (by rw [List.getD_eq_getElem _ _ hj0]; exact List.getElem_mem hj0)
  have hb := abs_le_getAbsPeak input (input.getD j1 0)
    (by rw [List.getD_eq_getElem _ _ hj1]; exact List.getElem_mem hj1)
  obtain ⟨ha1, ha2⟩ := abs_le.mp ha
  obtain ⟨hb1, hb2⟩ := abs_le.mp hb
  rw [hx', abs_le]
  constructor <;> nlinarith

theorem claim_C10_witness :
    ([(3 : ℚ), 5] ≠ []) ∧ (0 : ℚ) < 2 ∧ (0 : ℚ) < 1 ∧
    ((∀ x ∈ linearResampleMono [(3 : ℚ), 5] 2 1,
        ∃ j0 j1 : ℕ, j0 < List.length [(3 : ℚ), 5] ∧ j1 < List.length [(3 : ℚ), 5] ∧
          ∃ t : ℚ, 0 ≤ t ∧ t < 1 ∧
            x = List.getD [(3 : ℚ), 5] j0 0
              + (List.getD [(3 : ℚ), 5] j1 0 - List.getD [(3 : ℚ), 5] j0 0) * t) ∧
      getAbsPeak (linearResampleMono [(3 : ℚ), 5] 2 1) ≤ getAbsPeak [(3 : ℚ), 5]) :=
  ⟨by simp, by norm_num, by norm_num,
    claim_C10_resample_safety [(3 : ℚ), 5] 2 1 (by simp) (by norm_num) (by norm_num)⟩

/-- C10 counterexample: on the empty input buffer the resampler's clamped
read index is `min(0, length - 1) = -1`, an out-of-bounds read (JS yields
`undefined`, and the produced sample is not an interpolation of any input
samples, since there are none). -/
theorem claim_C10_counterexample :
    readIdx (List.length ([] : List ℚ)) 0 = -1 ∧
    (linearResampleMono ([] : List ℚ) 1 2).length = 1 ∧
    ¬ ∀ x ∈ linearResampleMono ([] : List ℚ) 1 2,
        ∃ j0 j1 : ℕ, j0 < ([] : List ℚ).length ∧ j1 < ([] : List ℚ).length ∧
          ∃ t : ℚ, 0 ≤ t ∧ t < 1 ∧
            x = ([] : List ℚ).getD j0 0
              + (([] : List ℚ).getD j1 0 - ([] : List ℚ).getD j0 0) * t := by
  have hlen : (linearResampleMono ([] : List ℚ) 1 2).length = 1 := by
    unfold linearResampleMono
    rw [if_neg (by norm_num)]
    rw [resampleLoop_length]
    norm_num
  refine ⟨by unfold readIdx; norm_num, hlen, ?_⟩
  intro h
  have hne : linearResampleMono ([] : List ℚ) 1 2 ≠ [] := by
    intro hcontra
    rw [hcontra] at hlen
    simp at hlen
  obtain ⟨x, hx⟩ := List.exists_mem_of_ne_nil _ hne
  obtain ⟨j0, j1, hj0, _⟩ := h x hx
  simp at hj0

end ResampleTheorems

section QuantizeTheorems

theorem wrap16_bounds (n : ℤ) : -32768 ≤ wrap16 n ∧ wrap16 n ≤ 32767 := by
  unfold wrap16
  have h1 := Int.emod_nonneg (n + 32768) (by norm_num : (65536 : ℤ) ≠ 0)
  have h2 := Int.emod_lt_of_pos (n + 32768) (by norm_num : (0 : ℤ) < 65536)
  omega

/-- C4: for every input buffer (clamping makes values outside [-1, 1] and
arbitrary dither noise harmless), 8-bit quantization produces only bytes
in [0, 255] (the output type is ℕ, so 0 ≤ b holds by construction) and
16-bit quantization produces only values in [-32768, 32767]. -/
theorem claim_C4_quantization_ranges (input : List ℚ) (noise8 noise16 : List (ℚ × ℚ)) :
    (∀ b ∈ applyDitherThenQuantize input 8 noise8, b ≤ 255) ∧
    (∀ v ∈ floatTo16BitPCMWithTPDF input noise16, -32768 ≤ v ∧ v ≤ 32767) := by
  constructor
  · intro b hb
    unfold applyDitherThenQuantize floatTo8BitUnsignedPCM at hb
    obtain ⟨v, _, hbeq⟩ := List.mem_map.mp hb
    rw [← hbeq]
    exact Int.toNat_le.mpr (max_le (by norm_num) (min_le_left _ _))
  · intro v hv
    unfold floatTo16BitPCMWithTPDF at hv
    obtain ⟨i, _, hveq⟩ := List.mem_map.mp hv
    rw [← hveq]
    exact wrap16_bounds _

theorem claim_C4_witness :
    ((255 : ℕ) ∈ applyDitherThenQuantize [(2 : ℚ)] 8 []) ∧ (255 : ℕ) ≤ 255 ∧
    ((32767 : ℤ) ∈ floatTo16BitPCMWithTPDF [(2 : ℚ)] []) ∧
    (-32768 ≤ (32767 : ℤ) ∧ (32767 : ℤ) ≤ 32767) := by
  have h8 : applyDitherThenQuantize [(2 : ℚ)] 8 [] = [255] := by
    simp only [applyDitherThenQuantize, floatTo8BitUnsignedPCM, tpdfDither, jsRound,
      List.length_cons, List.length_nil, List.range_succ, List.range_zero, List.map_cons,
      List.map_nil, List.nil_append, List.getD_cons_zero, List.getD_nil, min_def, max_def]
    norm_num
    decide
  have h16 : floatTo16BitPCMWithTPDF [(2 : ℚ)] [] = [32767] := by
    simp only [floatTo16BitPCMWithTPDF, wrap16, jsTrunc,
      List.length_cons, List.length_nil, List.range_succ, List.range_zero, List.map_cons,
      List.map_nil, List.nil_append, List.getD_cons_zero, List.getD_nil]
    norm_num
  have hm8 : (255 : ℕ) ∈ applyDitherThenQuantize [(2 : ℚ)] 8 [] := by
    rw [h8]
    exact List.mem_singleton_self 255
  have hm16 : (32767 : ℤ) ∈ floatTo16BitPCMWithTPDF [(2 : ℚ)] [] := by
    rw [h16]
    exact List.mem_singleton_self 32767
  exact ⟨hm8, (claim_C4_quantization_ranges [(2 : ℚ)] [] []).1 255 hm8,
    hm16, (claim_C4_quantization_ranges [(2 : ℚ)] [] []).2 32767 hm16⟩

theorem applyDitherThenQuantize_length (input : List ℚ) (bits : ℕ) (noise : List (ℚ × ℚ)) :
    (applyDitherThenQuantize input bits noise).length = input.length := by
  simp [applyDitherThenQuantize, floatTo8BitUnsignedPCM]

theorem writeWavU8Mono_length (pcm : List ℕ) (rate : ℕ) :
    (writeWavU8Mono pcm rate).length = 44 + pcm.length := by
  simp [writeWavU8Mono]
  omega

theorem quantByte_near128 (r1 r2 : ℚ) (h10 : 0 ≤ r1) (h11 : r1 < 1) (h20 : 0 ≤ r2) (h21 : r2 < 1) :
    127 ≤ (max 0 (min 255 (jsRound
        ((max (-1) (min 1 (tpdfDither 0 (1 / 2 ^ 7) (r1, r2))) * (1 / 2) + 1 / 2) * 255)))).toNat ∧
    (max 0 (min 255 (jsRound
        ((max (-1) (min 1 (tpdfDither 0 (1 / 2 ^ 7) (r1, r2))) * (1 / 2) + 1 / 2) * 255)))).toNat
      ≤ 128 := by
  have hd : tpdfDither 0 (1 / 2 ^ 7) ((r1, r2) : ℚ × ℚ) = (r1 + r2 - 1) * (1 / 128) := by
    unfold tpdfDither
    norm_num
  have hdlo : -(1 / 128) ≤ (r1 + r2 - 1) * (1 / 128 : ℚ) := by nlinarith
  have hdhi : ((r1 + r2 - 1) * (1 / 128) : ℚ) < 1 / 128 := by nlinarith
  rw [hd, min_eq_right (show ((r1 + r2 - 1) * (1 / 128) : ℚ) ≤ 1 by linarith),
    max_eq_right (show (-1 : ℚ) ≤ (r1 + r2 - 1) * (1 / 128) by linarith)]
  set u := jsRound (((r1 + r2 - 1) * (1 / 128) * (1 / 2) + 1 / 2) * 255 : ℚ) with hu
  have hu_lo : (127 : ℤ) ≤ u := by
    rw [hu]
    unfold jsRound
    rw [Int.le_floor]
    push_cast
    linarith
  have hu_hi : u ≤ 128 := by
    have h129 : u < 129 := by
      rw [hu]
      unfold jsRound
      rw [Int.floor_lt]
      push_cast
      linarith
    omega
  rw [min_eq_right (show u ≤ (255 : ℤ) by omega), max_eq_right (show (0 : ℤ) ≤ u by omega)]
  omega

/-- C5: quantizing 100 all-zero samples with any legal TPDF dither draws
(each uniform draw in [0, 1)) and encoding at 22168 Hz yields exactly
144 bytes (44-byte header plus 100 data bytes), and every data byte is
128 up to 1 LSB (i.e. 127 or 128). -/
theorem claim_C5_silence_encoding (noise : List (ℚ × ℚ))
    (h : ∀ p ∈ noise, 0 ≤ p.1 ∧ p.1 < 1 ∧ 0 ≤ p.2 ∧ p.2 < 1) :
    (writeWavU8Mono (applyDitherThenQuantize (List.replicate 100 (0 : ℚ)) 8 noise) 22168).length
      = 144 ∧
    ∀ b ∈ applyDitherThenQuantize (List.replicate 100 (0 : ℚ)) 8 noise,
      127 ≤ b ∧ b ≤ 128 := by
  constructor
  · rw [writeWavU8Mono_length, applyDitherThenQuantize_length]
    norm_num
  · intro b hb
    unfold applyDitherThenQuantize floatTo8BitUnsignedPCM at hb
    obtain ⟨v, hv, hbeq⟩ := List.mem_map.mp hb
    obtain ⟨i, _, hveq⟩ := List.mem_map.mp hv
    have hz : (List.replicate 100 (0 : ℚ)).getD i 0 = 0 := by
      rcases lt_or_le i 100 with hlt | hle
      · rw [List.getD_eq_getElem _ _ (by simpa using hlt), List.getElem_replicate]
      · rw [List.getD_eq_default _ _ (by simpa using hle)]
    have hnp : 0 ≤ (noise.getD i (0, 0)).1 ∧ (noise.getD i (0, 0)).1 < 1 ∧
        0 ≤ (noise.getD i (0, 0)).2 ∧ (noise.getD i (0, 0)).2 < 1 := by
      rcases lt_or_le i noise.length with hilt | hile
      · have hmem : noise.getD i (0, 0) ∈ noise := by
          rw [List.getD_eq_getElem _ _ hilt]
          exact List.getElem_mem hilt
        exact h _ hmem
      · rw [List.getD_eq_default _ _ hile]
        norm_num
    rw [← hbeq, ← hveq, hz]
    exact quantByte_near128 (noise.getD i (0, 0)).1 (noise.getD i (0, 0)).2
      hnp.1 hnp.2.1 hnp.2.2.1 hnp.2.2.2

theorem claim_C5_witness :
    (∀ p ∈ ([] : List (ℚ × ℚ)), 0 ≤ p.1 ∧ p.1 < 1 ∧ 0 ≤ p.2 ∧ p.2 < 1) ∧
    ((writeWavU8Mono (applyDitherThenQuantize (List.replicate 100 (0 : ℚ)) 8 []) 22168).length
        = 144 ∧
      ∀ b ∈ applyDitherThenQuantize (List.replicate 100 (0 : ℚ)) 8 [],
        127 ≤ b ∧ b ≤ 128) :=
  ⟨by simp, claim_C5_silence_encoding [] (by simp)⟩

/-- C6: for every 8-bit PCM payload, re-validating the bytes produced by
`writeWavU8Mono` at 22168 Hz parses the header and reports in its stats
exactly the requested sample rate (22168), channel count (1, mono) and
bit depth (8). -/
theorem claim_C6_roundtrip_reports_format (pcm : List ℕ) :
    (validatePTWavExport (writeWavU8Mono pcm 22168)).stats.sampleRate = 22168 ∧
    (validatePTWavExport (writeWavU8Mono pcm 22168)).stats.channels = 1 ∧
    (validatePTWavExport (writeWavU8Mono pcm 22168)).stats.bitsPerSample = 8 :=
  ⟨rfl, rfl, rfl⟩

end QuantizeTheorems

section NormalizeTheorems

theorem sumSquares_nil : sumSquares ([] : List ℝ) = 0 := rfl

theorem getAbsPeak_nil : getAbsPeak ([] : List ℝ) = 0 := rfl

theorem foldl_add_sq (l : List ℝ) (s : ℝ) :
    l.foldl (fun a v => a + v * v) s = s + sumSquares l := by
  induction l generalizing s with
  | nil =>
    rw [sumSquares_nil]
    simp
  | cons x xs ih =>
    show xs.foldl (fun a v => a + v * v) (s + x * x) = s + sumSquares (x :: xs)
    have h1 : sumSquares (x :: xs) = xs.foldl (fun a v => a + v * v) (0 + x * x) := rfl
    rw [ih (s + x * x), h1, ih (0 + x * x)]
    ring

theorem sumSquares_cons (x : ℝ) (xs : List ℝ) :
    sumSquares (x :: xs) = x * x + sumSquares xs := by
  have h1 : sumSquares (x :: xs) = xs.foldl (fun a v => a + v * v) (0 + x * x) := rfl
  rw [h1, foldl_add_sq]
  ring

theorem sumSquares_nonneg (l : List ℝ) : 0 ≤ sumSquares l := by
  induction l with
  | nil => exact le_refl 0
  | cons x xs ih =>
    rw [sumSquares_cons]
    nlinarith

theorem sumSquares_pos_of_peak_pos (l : List ℝ) (h : 0 < getAbsPeak l) : 0 < sumSquares l := by
  induction l with
  | nil =>
    rw [getAbsPeak_nil] at h
    exact absurd h (lt_irrefl 0)
  | cons x xs ih =>
    rw [getAbsPeak_cons] at h
    rw [sumSquares_cons]
    rcases lt_max_iff.mp h with hx | hxs
    · have hx2 : 0 < x * x := mul_self_pos.mpr (abs_pos.mp hx)
      nlinarith [sumSquares_nonneg xs]
    · nlinarith [ih hxs]

theorem getRms_pos_of_peak_pos (l : List ℝ) (h : 0 < getAbsPeak l) : 0 < getRms l := by
  have hne : l ≠ [] := by
    intro hc
    rw [hc, getAbsPeak_nil] at h
    exact absurd h (lt_irrefl 0)
  have hlen : 0 < (l.length : ℝ) := by
    have := List.length_pos.mpr hne
    exact_mod_cast this
  unfold getRms
  exact Real.sqrt_pos.mpr (div_pos (sumSquares_pos_of_peak_pos l h) hlen)

theorem dBToLinear_pos (db : ℝ) : 0 < dBToLinear db :=
  Real.rpow_pos_of_pos (by norm_num) _

theorem applyGainLimit_abs_le (gain L x : ℝ) (hL : 0 < L) : |applyGainLimit gain L x| ≤ L := by
  unfold applyGainLimit
  by_cases hc : L < |x * gain|
  · rw [if_pos hc]
    rcases lt_trichotomy (x * gain) 0 with hneg | hzero | hpos
    · rw [Real.sign_of_neg hneg, neg_one_mul, abs_neg, abs_of_pos hL]
    · rw [hzero, abs_zero] at hc
      linarith
    · rw [Real.sign_of_pos hpos, one_mul, abs_of_pos hL]
  · rw [if_neg hc]
    exact not_lt.mp hc

/-- C1: whenever the normalizer actually runs (the buffer is not below the
silence threshold), every sample of the post-call buffer has absolute
value at most the configured linear limiter threshold (hard clipping to
±threshold), and the reported gain is exactly
`min(targetRMS / RMS, maxGain)` in linear terms. -/
theorem claim_C1_normalizer_limiter_and_gain (mono : List ℝ) (cfg : NormCfg)
    (h0 : 0 < cfg.silenceThreshold) (h1 : cfg.silenceThreshold ≤ getAbsPeak mono) :
    (∀ x ∈ (normalizeMonoBuffer mono cfg).1, |x| ≤ dBToLinear cfg.limiterThresholdDBFS) ∧
    (normalizeMonoBuffer mono cfg).2.gain
      = min (dBToLinear cfg.targetRmsDBFS / getRms mono) (dBToLinear cfg.maxGainDB) := by
  have hnotlt : ¬ getAbsPeak mono < cfg.silenceThreshold := not_lt.mpr h1
  have hpeak : 0 < getAbsPeak mono := lt_of_lt_of_le h0 h1
  have hrms : 0 < getRms mono := getRms_pos_of_peak_pos mono hpeak
  have hfst : (normalizeMonoBuffer mono cfg).1
      = mono.map (applyGainLimit (normGain mono cfg) (dBToLinear cfg.limiterThresholdDBFS)) := by
    unfold normalizeMonoBuffer
    rw [if_neg hnotlt]
  have hgain : (normalizeMonoBuffer mono cfg).2.gain = normGain mono cfg := by
    unfold normalizeMonoBuffer
    rw [if_neg hnotlt]
  constructor
  · intro x hx
    rw [hfst] at hx
    obtain ⟨a, _, rfl⟩ := List.mem_map.mp hx
    exact applyGainLimit_abs_le _ _ a (dBToLinear_pos _)
  · rw [hgain]
    unfold normGain
    simp only [if_neg hrms.ne']

theorem claim_C1_witness :
    0 < defaultNormCfg.silenceThreshold ∧
    defaultNormCfg.silenceThreshold ≤ getAbsPeak [(1 : ℝ)] ∧
    ((∀ x ∈ (normalizeMonoBuffer [(1 : ℝ)] defaultNormCfg).1,
        |x| ≤ dBToLinear defaultNormCfg.limiterThresholdDBFS) ∧
      (normalizeMonoBuffer [(1 : ℝ)] defaultNormCfg).2.gain
        = min (dBToLinear defaultNormCfg.targetRmsDBFS / getRms [(1 : ℝ)])
            (dBToLinear defaultNormCfg.maxGainDB)) := by
  have hp : getAbsPeak [(1 : ℝ)] = 1 := by
    rw [getAbsPeak_cons, getAbsPeak_nil]
    norm_num
  have h0 : 0 < defaultNormCfg.silenceThreshold := by
    simp only [defaultNormCfg]
    norm_num
  have h1 : defaultNormCfg.silenceThreshold ≤ getAbsPeak [(1 : ℝ)] := by
    rw [hp]
    simp only [defaultNormCfg]
    norm_num
  exact ⟨h0, h1, claim_C1_normalizer_limiter_and_gain [(1 : ℝ)] defaultNormCfg h0 h1⟩

/-- C2 (amended): the normalizer skips exactly when the input's absolute
peak (`getAbsPeak`, not its RMS) is below the silence threshold, and when
it skips the buffer is returned unchanged; the all-zero buffer has peak 0,
so it reports `applied = false` and is left unchanged. -/
theorem claim_C2_silence_skip_on_peak (mono : List ℝ) (cfg : NormCfg) :
    ((normalizeMonoBuffer mono cfg).2.applied = false
      ↔ getAbsPeak mono < cfg.silenceThreshold) ∧
    (getAbsPeak mono < cfg.silenceThreshold → (normalizeMonoBuffer mono cfg).1 = mono) := by
  by_cases hlt : getAbsPeak mono < cfg.silenceThreshold
  · have hres1 : (normalizeMonoBuffer mono cfg).1 = mono := by
      unfold normalizeMonoBuffer
      rw [if_pos hlt]
    have hres2 : (normalizeMonoBuffer mono cfg).2.applied = false := by
      unfold normalizeMonoBuffer
      rw [if_pos hlt]
    exact ⟨iff_of_true hres2 hlt, fun _ => hres1⟩
  · have happ : (normalizeMonoBuffer mono cfg).2.applied = true := by
      unfold normalizeMonoBuffer
      rw [if_neg hlt]
    refine ⟨iff_of_false ?_ hlt, fun h => absurd h hlt⟩
    rw [happ]
    simp

theorem claim_C2_witness :
    getAbsPeak [(0 : ℝ), 0, 0] < defaultNormCfg.silenceThreshold ∧
    (normalizeMonoBuffer [(0 : ℝ), 0, 0] defaultNormCfg).2.applied = false ∧
    (normalizeMonoBuffer [(0 : ℝ), 0, 0] defaultNormCfg).1 = [(0 : ℝ), 0, 0] := by
  have hp : getAbsPeak [(0 : ℝ), 0, 0] = 0 := by
    rw [getAbsPeak_cons, getAbsPeak_cons, getAbsPeak_cons, getAbsPeak_nil]
    norm_num
  have hlt : getAbsPeak [(0 : ℝ), 0, 0] < defaultNormCfg.silenceThreshold := by
    rw [hp]
    simp only [defaultNormCfg]
    norm_num
  have h := claim_C2_silence_skip_on_peak [(0 : ℝ), 0, 0] defaultNormCfg
  exact ⟨hlt, h.1.mpr hlt, h.2 hlt⟩

/-- C2 counterexample: the buffer `[1e-6, 0]` has RMS `1e-6 / sqrt 2`,
below the silence threshold `1e-6`, yet the normalizer runs
(`applied = true`) because the code tests the absolute peak, which equals
the threshold, not the RMS. -/
theorem claim_C2_counterexample :
    getRms [(1 / 1000000 : ℝ), 0] < 1 / 1000000 ∧
    (normalizeMonoBuffer [(1 / 1000000 : ℝ), 0] defaultNormCfg).2.applied = true := by
  have hpeak : getAbsPeak [(1 / 1000000 : ℝ), 0] = 1 / 1000000 := by
    rw [getAbsPeak_cons, getAbsPeak_cons, getAbsPeak_nil]
    rw [abs_of_pos (by norm_num : (0 : ℝ) < 1 / 1000000), abs_zero]
    norm_num
  constructor
  · unfold getRms
    rw [sumSquares_cons, sumSquares_cons, sumSquares_nil]
    rw [show ((List.length [(1 / 1000000 : ℝ), 0] : ℕ) : ℝ) = 2 by norm_num]
    exact (Real.sqrt_lt' (by norm_num)).mpr (by norm_num)
  · unfold normalizeMonoBuffer
    rw [if_neg (by rw [hpeak]; simp only [defaultNormCfg]; norm_num)]

end NormalizeTheorems

section ExportTheorems

/-- C9 (amended): DC removal, resampling and quantization return fresh
buffers (they are pure functions of their input), but loudness
normalization is not side-effect-free: it writes the gained-and-limited
samples back into its input buffer (returned unchanged only when it
skips), and `exportPTWavV2` feeds that mutated buffer — not the DC-removed
original — to the resampler (the fade likewise mutates the stage-owned
resampled copy in place). -/
theorem claim_C9_stage_buffer_effects (mono : List ℝ) (cfg : NormCfg) :
    (getAbsPeak mono < cfg.silenceThreshold → (normalizeMonoBuffer mono cfg).1 = mono) ∧
    (¬ getAbsPeak mono < cfg.silenceThreshold →
      (normalizeMonoBuffer mono cfg).1
        = mono.map (applyGainLimit (normGain mono cfg) (dBToLinear cfg.limiterThresholdDBFS))) ∧
    ∀ (input : List ℝ) (src : ℝ) (noise : List (ℝ × ℝ)), input ≠ [] →
      exportPTWavV2 input src noise
        = some (writeWavU8Mono
            (applyDitherThenQuantize
              (applyEndFade
                (linearResampleMono ((normalizeMonoBuffer (removeDC input) ptNormCfg).1)
                  src 22168)
                (min (linearResampleMono ((normalizeMonoBuffer (removeDC input) ptNormCfg).1)
                    src 22168).length
                  ⌊(22168 : ℝ) * (1 / 100)⌋.toNat))
              8 noise)
            22168) := by
  refine ⟨fun h => ?_, fun h => ?_, ?_⟩
  · unfold normalizeMonoBuffer
    rw [if_pos h]
  · unfold normalizeMonoBuffer
    rw [if_neg h]
  · intro input src noise hne
    unfold exportPTWavV2
    rw [if_neg (fun hc => hne (List.length_eq_zero.mp hc))]

theorem claim_C9_witness :
    (¬ getAbsPeak [(1 : ℝ)] < defaultNormCfg.silenceThreshold) ∧
    (normalizeMonoBuffer [(1 : ℝ)] defaultNormCfg).1
      = [(1 : ℝ)].map (applyGainLimit (normGain [(1 : ℝ)] defaultNormCfg)
          (dBToLinear defaultNormCfg.limiterThresholdDBFS)) ∧
    getAbsPeak [(0 : ℝ)] < defaultNormCfg.silenceThreshold ∧
    (normalizeMonoBuffer [(0 : ℝ)] defaultNormCfg).1 = [(0 : ℝ)] ∧
    ([(1 : ℝ)] ≠ []) ∧
    exportPTWavV2 [(1 : ℝ)] 48000 []
      = some (writeWavU8Mono
          (applyDitherThenQuantize
            (applyEndFade
              (linearResampleMono ((normalizeMonoBuffer (removeDC [(1 : ℝ)]) ptNormCfg).1)
                48000 22168)
              (min (linearResampleMono ((normalizeMonoBuffer (removeDC [(1 : ℝ)]) ptNormCfg).1)
                  48000 22168).length
                ⌊(22168 : ℝ) * (1 / 100)⌋.toNat))
            8 [])
          22168) := by
  have h1 := claim_C9_stage_buffer_effects [(1 : ℝ)] defaultNormCfg
  have h0 := claim_C9_stage_buffer_effects [(0 : ℝ)] defaultNormCfg
  have hpk1 : ¬ getAbsPeak [(1 : ℝ)] < defaultNormCfg.silenceThreshold := by
    rw [getAbsPeak_cons, getAbsPeak_nil]
    simp only [defaultNormCfg]
    norm_num
  have hpk0 : getAbsPeak [(0 : ℝ)] < defaultNormCfg.silenceThreshold := by
    rw [getAbsPeak_cons, getAbsPeak_nil]
    simp only [defaultNormCfg]
    norm_num
  exact ⟨hpk1, h1.2.1 hpk1, hpk0, h0.1 hpk0, by simp,
    h1.2.2 [(1 : ℝ)] 48000 [] (by simp)⟩

/-- C9 counterexample: normalization is not side-effect-free on the buffer
it consumes.  With 0 dBFS target and limiter and +20 dB max gain, the
buffer `[1/2]` has RMS 1/2, the gain is `min(1 / (1/2), 10) = 2`, and the
post-call buffer content is `[1]`, not the original `[1/2]`. -/
theorem claim_C9_counterexample :
    (normalizeMonoBuffer [(1 / 2 : ℝ)] cexNormCfg).1 ≠ [(1 / 2 : ℝ)] := by
  have hpeak : getAbsPeak [(1 / 2 : ℝ)] = 1 / 2 := by
    rw [getAbsPeak_cons, getAbsPeak_nil]
    rw [abs_of_pos (by norm_num : (0 : ℝ) < 1 / 2)]
    norm_num
  have hrms : getRms [(1 / 2 : ℝ)] = 1 / 2 := by
    unfold getRms
    rw [sumSquares_cons, sumSquares_nil]
    rw [show ((List.length [(1 / 2 : ℝ)] : ℕ) : ℝ) = 1 by norm_num]
    rw [show ((1 / 2 : ℝ) * (1 / 2) + 0) / 1 = (1 / 2) ^ 2 by norm_num]
    exact Real.sqrt_sq (by norm_num)
  have ht : dBToLinear (0 : ℝ) = 1 := by
    unfold dBToLinear
    rw [show ((0 : ℝ) / 20) = 0 by norm_num]
    exact Real.rpow_zero 10
  have hm : dBToLinear (20 : ℝ) = 10 := by
    unfold dBToLinear
    rw [show ((20 : ℝ) / 20) = 1 by norm_num]
    exact Real.rpow_one 10
  have hgain : normGain [(1 / 2 : ℝ)] cexNormCfg = 2 := by
    unfold normGain
    simp only [cexNormCfg, hrms]
    rw [if_neg (by norm_num), ht, hm]
    rw [show (1 : ℝ) / (1 / 2) = 2 by norm_num]
    exact min_eq_left (by norm_num)
  have hL : dBToLinear cexNormCfg.limiterThresholdDBFS = 1 := by
    simp only [cexNormCfg]
    exact ht
  have hfst : (normalizeMonoBuffer [(1 / 2 : ℝ)] cexNormCfg).1
      = [applyGainLimit (normGain [(1 / 2 : ℝ)] cexNormCfg)
          (dBToLinear cexNormCfg.limiterThresholdDBFS) (1 / 2)] := by
    unfold normalizeMonoBuffer
    rw [if_neg (by rw [hpeak]; simp only [cexNormCfg]; norm_num)]
    rfl
  have happ : applyGainLimit 2 1 (1 / 2 : ℝ) = 1 := by
    unfold applyGainLimit
    norm_num
  rw [hfst, hgain, hL, happ]
  intro hc
  injection hc with hh _
  norm_num at hh

end ExportTheorems
